import Mathlib

/-! Shallow embedding of the LDraw2Print export CLI (src/export_cli.py):
its step parser, step synthesizer, object assigner, export pipeline,
manual assembler and run orchestration, together with proofs about them.
Python strings are modelled through their character lists, and the string
methods used by the script (strip, startswith, endswith, slicing) are
translated below. -/

namespace LDraw2Print

/-! Python string primitives, at the character-list level. -/

def isSpaceChar (c : Char) : Bool :=
  c = ' ' || c = '\t' || c = '\n' || c = '\x0d' || c = '\x0b' || c = '\x0c'

def pyStrip (s : String) : String :=
  String.mk (((s.data.dropWhile isSpaceChar).reverse.dropWhile isSpaceChar).reverse)

def pyStartsWith (s p : String) : Bool :=
  p.data.isPrefixOf s.data

def pyEndsWith (s p : String) : Bool :=
  p.data.isSuffixOf s.data

def pyDropRight (s : String) (n : Nat) : String :=
  String.mk (s.data.take (s.data.length - n))

/-! Step Parser (export_cli.py, parse_ldraw_steps, lines 38 to 65).
Lines are stripped; a line starting with the token 0 STEP or 0 ROTSTEP
flushes the current buffer when it is non-empty; a line whose first
character is 1 is appended (stripped) to the buffer; other lines are
ignored; a non-empty buffer at end of input is flushed.  An unreadable
file (the except branch) yields the empty step list, modelled by the
none case of the input. -/

def isStepMarker (t : String) : Bool :=
  pyStartsWith t "0 STEP" || pyStartsWith t "0 ROTSTEP"

def isPartLine (t : String) : Bool :=
  !t.data.isEmpty && (t.data.headI == '1')

def parseGo : List (List String) → List String → List String → List (List String)
  | steps, cur, [] => if cur.isEmpty then steps else steps ++ [cur]
  | steps, cur, l :: ls =>
    let t := pyStrip l
    if isStepMarker t then
      if cur.isEmpty then parseGo steps cur ls else parseGo (steps ++ [cur]) [] ls
    else if isPartLine t then parseGo steps (cur ++ [t]) ls
    else parseGo steps cur ls

def parseLines (ls : List String) : List (List String) :=
  parseGo [] [] ls

def parse_ldraw_steps : Option (List String) → List (List String)
  | none => []
  | some ls => parseLines ls

/-- The part-placement lines of an input, in order, as the parser
classifies them (stripped, not a step marker, first character 1). -/
def partsOf (ls : List String) : List String :=
  ls.filterMap (fun l =>
    let t := pyStrip l
    if isStepMarker t then none
    else if isPartLine t then some t
    else none)

/-- Reference reading of the parser contract: split the input at the
step-marker lines, keep the part lines of every group, and drop the
empty groups. -/
def groupsByMarker : List String → List (List String)
  | [] => [[]]
  | l :: ls =>
    let g := groupsByMarker ls
    let t := pyStrip l
    if isStepMarker t then [] :: g
    else if isPartLine t then
      match g with
      | [] => [[t]]
      | h :: gs => (t :: h) :: gs
    else g

def stepsSpec (ls : List String) : List (List String) :=
  (groupsByMarker ls).filter (fun s => !s.isEmpty)

/-! Step Synthesizer (export_cli.py, lines 82 to 84): an empty parsed
step list is replaced by the single virtual step containing the word
all; a non-empty list is kept unchanged. -/

def synthSteps (parsed : List (List String)) : List (List String) :=
  if parsed.isEmpty then [["all"]] else parsed

/-! Object Assigner (export_cli.py, lines 127 to 146): with k steps and
the imported object list, every step takes a slice of length N / k
(floor division) starting at its cursor position, except the last step,
which runs to the end of the list; the cumulative set is extended by
each slice. -/

def assignGo (objs : List α) (k q : Nat) : List α → List Nat → List (List α × List α)
  | _, [] => []
  | cum, i :: rest =>
    let s := i * q
    let e := if i + 1 < k then s + q else objs.length
    let delta := (objs.drop s).take (e - s)
    let cum2 := cum ++ delta
    (cum2, delta) :: assignGo objs k q cum2 rest

def assignSteps (objs : List α) (k : Nat) : List (List α × List α) :=
  assignGo objs k (objs.length / k) [] (List.range k)

/-- The pair (cumulative count, new count) recorded for every step. -/
def assignCounts (objs : List α) (k : Nat) : List (Nat × Nat) :=
  (assignSteps objs k).map (fun p => (p.1.length, p.2.length))

/-! Step rendering plan (export_cli.py, lines 112 to 146).  The render
of step n either yields an image path or fails; a failed render is
omitted from the rendered list.  In the single virtual step case the
whole model is rendered once and the recorded new-part count is the
total object count. -/

def renderedSteps (objs : List α) (steps : List (List String))
    (render : Nat → Option String) : List (Nat × String × Nat) :=
  if steps = [["all"]] then
    match render 1 with
    | some img => [(1, img, objs.length)]
    | none => []
  else
    (assignSteps objs steps.length).enum.filterMap (fun p =>
      match render (p.1 + 1) with
      | some img => some (p.1 + 1, img, p.2.2.length)
      | none => none)

/-! Manual Assembler (export_cli.py, create_lego_style_instructions,
lines 257 to 455).  The cover shows the length of the rendered list;
every rendered step becomes one page showing its recorded step number
and new-part count, and a footer naming that step number out of the
length of the rendered list. -/

structure ManualPageView where
  stepNumber : Nat
  partsCount : Nat
  image : String
  footerTotal : Nat

structure ManualDoc where
  title : String
  coverStepCount : Nat
  pages : List ManualPageView

def create_lego_style_instructions (steps : List (Nat × String × Nat))
    (modelName : String) : ManualDoc :=
  ⟨modelName, steps.length, steps.map (fun s => ⟨s.1, s.2.2, s.2.1, steps.length⟩)⟩

/-! Material-name normalization (export_cli.py, lines 516 to 523) and
the bucket key of an object (lines 531 to 535). -/

def clean_string (s : String) : String :=
  String.mk (s.data.map (fun c =>
    if c = '\\' ∨ c = '/' ∨ c = '*' ∨ c = '?' ∨ c = ':' ∨ c = '"' ∨
        c = '<' ∨ c = '>' ∨ c = '|' then '_' else c))

def stripVariant (s : String) : String :=
  if pyEndsWith s "_s" then pyDropRight s 2 else s

/-- Removal of a trailing duplicate-index suffix: a dot followed by one
or more digits at the end of the string. -/
def stripDupIndex (s : String) : String :=
  let r := s.data.reverse
  let ds := r.takeWhile Char.isDigit
  if ds.isEmpty then s
  else
    match r.drop ds.length with
    | '.' :: rest => String.mk rest.reverse
    | _ => s

def normalize_material_name (s : String) : String :=
  clean_string (stripDupIndex (stripVariant s))

def bucketKey : Option String → String
  | some m => normalize_material_name m
  | none => "Uncolored"

/-! Collision-safe naming (export_cli.py, lines 566 to 574).  Decimal
numerals are embedded through an explicit digit function so that the
numeric suffixes of the while loop are concrete strings. -/

def decDigitsAux : Nat → Nat → List Char
  | 0, _ => []
  | fuel + 1, n =>
    if n = 0 then [] else Char.ofNat (48 + n % 10) :: decDigitsAux fuel (n / 10)

def natDecimal (n : Nat) : String :=
  if n = 0 then "0" else String.mk ((decDigitsAux n n).reverse)

/-- Numeric value of a little-endian digit list, used to invert
decDigitsAux. -/
def digitsVal : List Char → Nat
  | [] => 0
  | c :: cs => (c.toNat - 48) + 10 * digitsVal cs

/-- The n-th candidate path tried by the collision loop: the plain name
first, then the name with suffixes _1, _2 and so on. -/
def candidate (folder base : String) : Nat → String
  | 0 => folder ++ "/" ++ base ++ ".obj"
  | n + 1 => folder ++ "/" ++ base ++ "_" ++ natDecimal (n + 1) ++ ".obj"

def resolveAux (fs : List String) (folder base : String) : Nat → Nat → String
  | 0, n => candidate folder base n
  | fuel + 1, n =>
    if candidate folder base n ∈ fs then resolveAux fs folder base fuel (n + 1)
    else candidate folder base n

/-- The path chosen for an export: the first candidate, in increasing
suffix order, that does not already exist.  One more try than there are
existing paths always suffices. -/
def resolvePath (fs : List String) (folder base : String) : String :=
  resolveAux fs folder base (fs.length + 1) 0

/-! Export loop (export_cli.py, lines 525 to 602).  An object carries
its name, optional material name, vertex count, current modifier stack
and an abstract flag saying whether its export call raises.  Objects
with fewer than three vertices are skipped before the try block.  Inside
the try block the two transient modifiers are added, the output path is
resolved and the file written, and only then are the modifiers removed;
an exception caught by the except branch therefore leaves both modifiers
on the object and writes no file, and the loop continues. -/

structure PyObj where
  name : String
  material : Option String
  verts : Nat
  raises : Bool
  mods : List String

structure LoopResult where
  fs : List String
  written : List String
  failed : List String
  objs : List PyObj

def exportLoop (outputDir : String) : List PyObj → List String → LoopResult
  | [], fs => ⟨fs, [], [], []⟩
  | o :: rest, fs =>
    if o.verts < 3 then
      let r := exportLoop outputDir rest fs
      ⟨r.fs, r.written, r.failed, o :: r.objs⟩
    else
      let folder := outputDir ++ "/" ++ bucketKey o.material
      let withMods : PyObj :=
        ⟨o.name, o.material, o.verts, o.raises,
          o.mods ++ ["AutoTriangulate", "ToleranceShrink"]⟩
      if o.raises then
        let r := exportLoop outputDir rest fs
        ⟨r.fs, r.written, o.name :: r.failed, withMods :: r.objs⟩
      else
        let path := resolvePath fs folder (clean_string o.name)
        let reverted : PyObj := ⟨o.name, o.material, o.verts, o.raises, o.mods⟩
        let r := exportLoop outputDir rest (fs ++ [path])
        ⟨r.fs, path :: r.written, r.failed, reverted :: r.objs⟩

/-! Run orchestration (export_cli.py, lines 12 to 35 and 457 to 613).
The engine is abstracted by a world: the readable lines of the input
file, whether the engine import of that file succeeds, the mesh objects
a successful import yields, and the per-step render outcome.  Import of
an LDraw or OBJ file that fails exits with status 1; an extension that
matches neither importer leaves the object list empty and the run ends
with status 0. -/

structure World where
  fileLines : Option (List String)
  importOk : Bool
  objects : List PyObj
  render : Nat → Option String

structure RunResult where
  exitCode : Nat
  exported : List String
  failed : List String
  instrFiles : List String
  finalObjects : List PyObj
  imported : Bool

def ldrawExts : List String :=
  [".ldr", ".mpd", ".dat"]

/-- The lower-cased extension of a path, following os.path.splitext:
the suffix of the base name from its last dot, leading dots of the base
name not counting. -/
def extOf (p : String) : String :=
  let base := (p.data.reverse.takeWhile (fun c => c ≠ '/')).reverse
  let rest := base.dropWhile (fun c => c = '.')
  let extRev := rest.reverse.takeWhile (fun c => c ≠ '.')
  if extRev.length = rest.length then ""
  else String.mk (('.' :: extRev.reverse).map Char.toLower)

/-- Files written by the instruction phase (generate_instructions_pdf,
lines 67 to 159), when it is requested for an LDraw extension: one image
per successful render, and the manual document when at least one render
succeeded.  The document file name stem is abstracted.  A failing import
raises inside the try block of the phase, so nothing is rendered or
written and the run continues. -/
def instructionOutputs (w : World) : List String :=
  if w.importOk then
    let rendered :=
      renderedSteps w.objects (synthSteps (parse_ldraw_steps w.fileLines)) w.render
    rendered.map (fun r => r.2.1) ++
      (if rendered.isEmpty then [] else ["instructions.html"])
  else []

def run (inputFile : Option String) (outputDir : String) (genInstr : Bool)
    (w : World) (fs₀ : List String) : RunResult :=
  match inputFile with
  | none => ⟨1, [], [], [], w.objects, false⟩
  | some f =>
    let ext := extOf f
    let instr := if genInstr ∧ ext ∈ ldrawExts then instructionOutputs w else []
    if ext ∈ ldrawExts then
      if w.importOk then
        let r := exportLoop outputDir w.objects fs₀
        ⟨0, r.written, r.failed, instr, r.objs, true⟩
      else ⟨1, [], [], instr, w.objects, false⟩
    else if ext = ".obj" then
      if w.importOk then
        let r := exportLoop outputDir w.objects fs₀
        ⟨0, r.written, r.failed, instr, r.objs, true⟩
      else ⟨1, [], [], instr, w.objects, false⟩
    else ⟨0, [], [], instr, w.objects, false⟩

/-! Refinement of the export loop in which the abstract raise flag of
PyObj is split by raise point, so that a failure in any part of the
per-object sequence of export_cli.py lines 530 to 602 is representable:
before the modifiers are added (folder setup, isolation, weld, lines
531 to 552), at the export call after both modifiers were added (lines
576 to 593), or in the revert step (the modifiers.remove calls at lines
595 to 596) - the last of these happens after the file was already
written, and the except branch leaves that file on disk.  The counter
count of successful exports (line 598) is reached only when no raise
occurred. -/

inductive RaiseStage where
  | never
  | duringSetup
  | atExport
  | atRevert
deriving DecidableEq

structure PyObjStaged where
  name : String
  material : Option String
  verts : Nat
  stage : RaiseStage
  mods : List String

structure LoopResultStaged where
  fs : List String
  written : List String
  failed : List String
  count : Nat
  objs : List PyObjStaged

def exportLoopStaged (outputDir : String) : List PyObjStaged → List String → LoopResultStaged
  | [], fs => ⟨fs, [], [], 0, []⟩
  | o :: rest, fs =>
    if o.verts < 3 then
      let r := exportLoopStaged outputDir rest fs
      ⟨r.fs, r.written, r.failed, r.count, o :: r.objs⟩
    else
      match o.stage with
      | RaiseStage.duringSetup =>
        let r := exportLoopStaged outputDir rest fs
        ⟨r.fs, r.written, o.name :: r.failed, r.count, o :: r.objs⟩
      | RaiseStage.atExport =>
        let withMods : PyObjStaged :=
          ⟨o.name, o.material, o.verts, o.stage,
            o.mods ++ ["AutoTriangulate", "ToleranceShrink"]⟩
        let r := exportLoopStaged outputDir rest fs
        ⟨r.fs, r.written, o.name :: r.failed, r.count, withMods :: r.objs⟩
      | RaiseStage.atRevert =>
        let withMods : PyObjStaged :=
          ⟨o.name, o.material, o.verts, o.stage,
            o.mods ++ ["AutoTriangulate", "ToleranceShrink"]⟩
        let path := resolvePath fs (outputDir ++ "/" ++ bucketKey o.material)
          (clean_string o.name)
        let r := exportLoopStaged outputDir rest (fs ++ [path])
        ⟨r.fs, path :: r.written, o.name :: r.failed, r.count, withMods :: r.objs⟩
      | RaiseStage.never =>
        let path := resolvePath fs (outputDir ++ "/" ++ bucketKey o.material)
          (clean_string o.name)
        let r := exportLoopStaged outputDir rest (fs ++ [path])
        ⟨r.fs, path :: r.written, r.failed, r.count + 1,
          (⟨o.name, o.material, o.verts, o.stage, o.mods⟩ : PyObjStaged) :: r.objs⟩

structure WorldStaged where
  fileLines : Option (List String)
  importOk : Bool
  objects : List PyObjStaged
  render : Nat → Option String

structure RunResultStaged where
  exitCode : Nat
  exported : List String
  failed : List String
  reportedCount : Nat
  instrFiles : List String
  finalObjects : List PyObjStaged
  imported : Bool

def instructionOutputsStaged (w : WorldStaged) : List String :=
  if w.importOk then
    let rendered :=
      renderedSteps w.objects (synthSteps (parse_ldraw_steps w.fileLines)) w.render
    rendered.map (fun r => r.2.1) ++
      (if rendered.isEmpty then [] else ["instructions.html"])
  else []

def runStaged (inputFile : Option String) (outputDir : String) (genInstr : Bool)
    (w : WorldStaged) (fs₀ : List String) : RunResultStaged :=
  match inputFile with
  | none => ⟨1, [], [], 0, [], w.objects, false⟩
  | some f =>
    let ext := extOf f
    let instr := if genInstr ∧ ext ∈ ldrawExts then instructionOutputsStaged w else []
    if ext ∈ ldrawExts then
      if w.importOk then
        let r := exportLoopStaged outputDir w.objects fs₀
        ⟨0, r.written, r.failed, r.count, instr, r.objs, true⟩
      else ⟨1, [], [], 0, instr, w.objects, false⟩
    else if ext = ".obj" then
      if w.importOk then
        let r := exportLoopStaged outputDir w.objects fs₀
        ⟨0, r.written, r.failed, r.count, instr, r.objs, true⟩
      else ⟨1, [], [], 0, instr, w.objects, false⟩
    else ⟨0, [], [], 0, instr, w.objects, false⟩

/-! Parser lemmas. -/

lemma groupsByMarker_ne_nil (ls : List String) : groupsByMarker ls ≠ [] := by
  induction ls with
  | nil => simp [groupsByMarker]
  | cons l ls ih =>
    cases hg : groupsByMarker ls with
    | nil => exact absurd hg ih
    | cons h gs =>
      by_cases hm : isStepMarker (pyStrip l)
      · simp [groupsByMarker, hm]
      · by_cases hp : isPartLine (pyStrip l)
        · simp [groupsByMarker, hm, hp, hg]
        · simp [groupsByMarker, hm, hp, hg]

lemma parseGo_eq (ls : List String) : ∀ steps cur,
    parseGo steps cur ls =
      steps ++ ((cur ++ (groupsByMarker ls).headI) :: (groupsByMarker ls).tail).filter
        (fun s => !s.isEmpty) := by
  induction ls with
  | nil =>
    intro steps cur
    by_cases hc : cur.isEmpty
    · simp [parseGo, groupsByMarker, hc, List.isEmpty_iff.mp hc]
    · simp [parseGo, groupsByMarker, hc]
  | cons l ls ih =>
    intro steps cur
    obtain ⟨h, gs, hg⟩ := List.exists_cons_of_ne_nil (groupsByMarker_ne_nil ls)
    by_cases hm : isStepMarker (pyStrip l)
    · by_cases hc : cur.isEmpty
      · have hc2 : cur = [] := List.isEmpty_iff.mp hc
        simp [parseGo, groupsByMarker, hm, hc, hc2, ih, hg]
      · simp [parseGo, groupsByMarker, hm, hc, ih, hg, List.filter_cons,
          List.append_assoc]
    · by_cases hp : isPartLine (pyStrip l)
      · simp [parseGo, groupsByMarker, hm, hp, ih, hg, List.append_assoc]
      · simp [parseGo, groupsByMarker, hm, hp, ih, hg]

lemma parseLines_eq_stepsSpec (ls : List String) : parseLines ls = stepsSpec ls := by
  obtain ⟨h, gs, hg⟩ := List.exists_cons_of_ne_nil (groupsByMarker_ne_nil ls)
  simp [parseLines, parseGo_eq, stepsSpec, hg]

lemma flatten_filter_nonempty (L : List (List String)) :
    (L.filter (fun s => !s.isEmpty)).flatten = L.flatten := by
  induction L with
  | nil => rfl
  | cons h t ih =>
    by_cases hh : h.isEmpty
    · simp [List.filter_cons, hh, ih, List.isEmpty_iff.mp hh]
    · simp [List.filter_cons, hh, ih]

lemma groupsByMarker_flatten (ls : List String) :
    (groupsByMarker ls).flatten = partsOf ls := by
  induction ls with
  | nil => simp [groupsByMarker, partsOf]
  | cons l ls ih =>
    obtain ⟨h, gs, hg⟩ := List.exists_cons_of_ne_nil (groupsByMarker_ne_nil ls)
    by_cases hm : isStepMarker (pyStrip l)
    · simp [groupsByMarker, partsOf, hm, ih]
    · by_cases hp : isPartLine (pyStrip l)
      · rw [hg] at ih
        simp [groupsByMarker, partsOf, hm, hp, hg]
        simpa using ih
      · simp [groupsByMarker, partsOf, hm, hp, ih]

/-- C3: the parser returns exactly the steps implied by the marker
positions: it equals the reference split of the input at step-marker
lines with part lines kept verbatim and empty groups dropped, the
concatenation of the returned steps is the sequence of part lines in
order (so the sum of the returned part counts equals the number m of
part lines), every returned step is non-empty, and unreadable input
yields the empty sequence. -/
theorem parser_complete_c3 :
    (∀ ls : List String,
        parseLines ls = stepsSpec ls ∧
        (parseLines ls).flatten = partsOf ls ∧
        ((parseLines ls).map List.length).sum = (partsOf ls).length ∧
        (parseLines ls).all (fun s => !s.isEmpty) = true) ∧
    parse_ldraw_steps none = [] := by
  refine ⟨fun ls => ?_, rfl⟩
  have hspec := parseLines_eq_stepsSpec ls
  have hflat : (parseLines ls).flatten = partsOf ls := by
    rw [hspec, stepsSpec, flatten_filter_nonempty, groupsByMarker_flatten]
  refine ⟨hspec, hflat, ?_, ?_⟩
  · rw [← List.length_flatten, hflat]
  · rw [hspec, stepsSpec]
    simp only [List.all_eq_true]
    intro s hs
    exact (List.mem_filter.mp hs).2

/-- C4: the bucket key is the material name with a trailing two
character variant suffix stripped, then a trailing dot-digits duplicate
index stripped, then every reserved filesystem character replaced by an
underscore, and the three spec examples all normalize to Red; an object
with no material receives the fixed bucket key Uncolored. -/
theorem bucket_key_c4 :
    normalize_material_name "Red_s" = "Red" ∧
    normalize_material_name "Red.001" = "Red" ∧
    normalize_material_name "Red" = "Red" ∧
    normalize_material_name "a\\b/c*d?e:f\"g<h>i|j" = "a_b_c_d_e_f_g_h_i_j" ∧
    (∀ m : String, bucketKey (some m) = normalize_material_name m) ∧
    bucketKey none = "Uncolored" :=
  ⟨rfl, rfl, rfl, rfl, fun _ => rfl, rfl⟩

/-! Object Assigner lemmas. -/

lemma assignGo_counts (objs : List α) (k q : Nat) (hq : k * q ≤ objs.length) :
    ∀ (n i : Nat) (cum : List α), i + n = k → cum.length = i * q →
      (assignGo objs k q cum (List.range' i n)).map (fun p => (p.1.length, p.2.length)) =
        (List.range' i n).map (fun j =>
          (if j + 1 < k then (j + 1) * q else objs.length,
           if j + 1 < k then q else objs.length - j * q)) := by
  intro n
  induction n with
  | zero => intro i cum _ _; rfl
  | succ m ih =>
    intro i cum hik hcum
    rw [List.range'_succ]
    by_cases hlt : i + 1 < k
    · have h1 : (i + 1) * q ≤ k * q := Nat.mul_le_mul_right q (by omega)
      have h2 : i * q + q ≤ objs.length := by
        have h3 := le_trans h1 hq
        rw [Nat.succ_mul] at h3
        exact h3
      have hmin : min q (objs.length - i * q) = q := Nat.min_eq_left (by omega)
      simp only [assignGo, List.map_cons, if_pos hlt]
      congr 1
      · simp only [List.length_append, List.length_take, List.length_drop,
          Nat.add_sub_cancel_left, hmin, hcum]
        rw [Nat.succ_mul]
      · have hlen : (cum ++ (objs.drop (i * q)).take (i * q + q - i * q)).length =
            (i + 1) * q := by
          simp only [List.length_append, List.length_take, List.length_drop,
            Nat.add_sub_cancel_left, hmin, hcum]
          rw [Nat.succ_mul]
        exact ih (i + 1) _ (by omega) hlen
    · have hk : i + 1 = k := by omega
      have hm : m = 0 := by omega
      subst hm
      have hiq : i * q ≤ objs.length := le_trans (Nat.mul_le_mul_right q (by omega)) hq
      simp only [assignGo, List.range'_zero, List.map_cons, List.map_nil, if_neg hlt]
      congr 1
      simp only [List.length_append, List.length_take, List.length_drop, hcum,
        Nat.min_self, Prod.mk.injEq, and_true]
      omega

lemma assignCounts_formula (objs : List α) (k : Nat) :
    assignCounts objs k =
      (List.range k).map (fun j =>
        (if j + 1 < k then (j + 1) * (objs.length / k) else objs.length,
         if j + 1 < k then objs.length / k else objs.length - j * (objs.length / k))) := by
  have hq : k * (objs.length / k) ≤ objs.length := by
    rw [Nat.mul_comm]
    exact Nat.div_mul_le_self objs.length k
  rw [assignCounts, assignSteps, List.range_eq_range']
  exact assignGo_counts objs k _ hq k 0 [] (by omega) (by simp)

lemma assignSteps_one (objs : List α) : assignSteps objs 1 = [(objs, objs)] := by
  have hr : List.range 1 = [0] := rfl
  simp [assignSteps, assignGo, hr, Nat.div_one, List.take_length]

/-- C1 counterexample: the scenario input with 2 step markers and 7 part
lines split (3, 2, 2) parses to steps of declared counts 3, 2, 2, yet
assigning 7 imported objects to those 3 steps records the pair sequence
[(2, 2), (4, 2), (7, 3)], not the claimed [(3, 3), (5, 2), (7, 2)]: the
assigner does not take each step's declared part count. -/
theorem object_assigner_c1_counterexample :
    (parseLines ["0 Header", "1 a", "1 b", "1 c", "0 STEP", "1 d", "1 e",
        "0 STEP", "1 f", "1 g"]).map List.length = [3, 2, 2] ∧
    assignCounts (List.range 7)
        (parseLines ["0 Header", "1 a", "1 b", "1 c", "0 STEP", "1 d", "1 e",
          "0 STEP", "1 f", "1 g"]).length = [(2, 2), (4, 2), (7, 3)] ∧
    ([(2, 2), (4, 2), (7, 3)] : List (Nat × Nat)) ≠ [(3, 3), (5, 2), (7, 2)] :=
  ⟨rfl, rfl, by decide⟩

/-- C1 amended: the Object Assigner ignores the declared per-step part
counts: with k steps and N imported objects, every step before the last
receives a delta of exactly N / k objects (floor division) from the
running cursor and the last step receives all remaining objects, the
cumulative count after step j being (j + 1) * (N / k) before the last
step and N at the last; in particular the scenario with 2 explicit step
markers, 7 part lines split (3, 2, 2) and 7 imported objects yields the
StepAssignment count sequence [(2, 2), (4, 2), (7, 3)]. -/
theorem object_assigner_c1_amended :
    (∀ (α : Type) (objs : List α) (k : Nat),
      assignCounts objs k =
        (List.range k).map (fun j =>
          (if j + 1 < k then (j + 1) * (objs.length / k) else objs.length,
           if j + 1 < k then objs.length / k else objs.length - j * (objs.length / k)))) ∧
    assignCounts (List.range 7)
        (parseLines ["0 Header", "1 a", "1 b", "1 c", "0 STEP", "1 d", "1 e",
          "0 STEP", "1 f", "1 g"]).length = [(2, 2), (4, 2), (7, 3)] :=
  ⟨fun _ objs k => assignCounts_formula objs k, rfl⟩

/-- C2 counterexample: an input with no usable step granularity (zero
parsed steps) and N = 7 imported objects is not partitioned into
ceil(7 / 5) = 2 virtual steps of sizes 5 and 2: the synthesizer produces
the single virtual step all, and the rendering plan is one single step
containing all 7 objects. -/
theorem step_synthesizer_c2_counterexample :
    renderedSteps (List.range 7) (synthSteps ([] : List (List String)))
        (fun _ => some "img") = [(1, "img", 7)] ∧
    (renderedSteps (List.range 7) (synthSteps ([] : List (List String)))
        (fun _ => some "img")).length ≠ 2 ∧
    (renderedSteps (List.range 7) (synthSteps ([] : List (List String)))
        (fun _ => some "img")).map (fun r => r.2.2) ≠ [5, 2] :=
  ⟨rfl, by decide, by decide⟩

/-- C2 amended: when the parsed Step sequence is empty it is replaced by
the single virtual step all, and when it has exactly one real step it is
kept unchanged; in both cases the rendering plan is one single step
whose recorded new-part count is the whole object count N (no batching
into groups of 5 occurs). -/
theorem step_synthesizer_c2_amended :
    ∀ (α : Type) (objs : List α) (render : Nat → Option String),
      (renderedSteps objs (synthSteps ([] : List (List String))) render =
        match render 1 with
        | some img => [(1, img, objs.length)]
        | none => []) ∧
      ∀ s : List String, s ≠ ["all"] →
        renderedSteps objs (synthSteps [s]) render =
          match render 1 with
          | some img => [(1, img, objs.length)]
          | none => [] := by
  intro α objs render
  constructor
  · cases hr : render 1 <;> simp [renderedSteps, synthSteps, hr]
  · intro s hs
    have hne : ([s] : List (List String)) ≠ [["all"]] := by simpa using hs
    cases hr : render 1 <;>
      simp [renderedSteps, synthSteps, hne, assignSteps_one, hr, List.enum]

/-- C2 amended witness at a concrete input: three objects, one real
parsed step. -/
theorem step_synthesizer_c2_amended_witness :
    renderedSteps [10, 20, 30] (synthSteps [["1 x"]]) (fun _ => some "i") =
      [(1, "i", 3)] :=
  (step_synthesizer_c2_amended Nat [10, 20, 30] (fun _ => some "i")).2
    ["1 x"] (by decide)

/-- C9 counterexample: a plan of 3 steps over 6 objects whose second
render fails produces a manual whose pages keep the original step
numbers 1 and 3 while the cover counts 2 pages: the displayed numbering
has a gap and does not compress to 1, 2. -/
theorem manual_numbering_c9_counterexample :
    (create_lego_style_instructions
        (renderedSteps (List.range 6) [["1 a"], ["1 b"], ["1 c"]]
          (fun n => if n = 2 then none else some "i")) "model").pages.map
        (fun p => p.stepNumber) = [1, 3] ∧
    (create_lego_style_instructions
        (renderedSteps (List.range 6) [["1 a"], ["1 b"], ["1 c"]]
          (fun n => if n = 2 then none else some "i")) "model").coverStepCount = 2 ∧
    ([1, 3] : List Nat) ≠ List.range' 1 2 :=
  ⟨rfl, rfl, by decide⟩

/-- C9 amended: the cover page shows the count of assembled pages, there
is exactly one page per successfully rendered step in step order, and
the of-N footer totals reflect the final assembled list; but each page
displays the step number originally recorded for it, so when a step
produced no renderable image the numbering keeps that gap instead of
compressing. -/
theorem manual_numbering_c9_amended :
    ∀ (steps : List (Nat × String × Nat)) (name : String),
      (create_lego_style_instructions steps name).coverStepCount =
        (create_lego_style_instructions steps name).pages.length ∧
      (create_lego_style_instructions steps name).pages.map (fun p => p.stepNumber) =
        steps.map (fun s => s.1) ∧
      (create_lego_style_instructions steps name).pages.map (fun p => p.partsCount) =
        steps.map (fun s => s.2.2) ∧
      (create_lego_style_instructions steps name).pages.map (fun p => p.image) =
        steps.map (fun s => s.2.1) ∧
      (create_lego_style_instructions steps name).pages.all
        (fun p => p.footerTotal == steps.length) = true := by
  intro steps name
  refine ⟨by simp [create_lego_style_instructions], ?_, ?_, ?_, ?_⟩
  · simp [create_lego_style_instructions]
  · simp [create_lego_style_instructions]
  · simp [create_lego_style_instructions]
  · simp only [create_lego_style_instructions, List.all_eq_true]
    intro p hp
    obtain ⟨s, hmem, rfl⟩ := List.mem_map.mp hp
    simp

/-! Collision-safe naming lemmas: the decimal digit function is
injective, hence all candidate paths are distinct, hence the while loop
always finds a free path within one more try than there are existing
paths, and the chosen path never collides with an existing one. -/

lemma data_mk (l : List Char) : (String.mk l).data = l := rfl

lemma data_append (s t : String) : (s ++ t).data = s.data ++ t.data := rfl

lemma char_digit_toNat : ∀ m : Nat, m < 10 → (Char.ofNat (48 + m)).toNat = 48 + m := by
  decide

lemma digitsVal_decDigitsAux : ∀ fuel n, n ≤ fuel →
    digitsVal (decDigitsAux fuel n) = n := by
  intro fuel
  induction fuel with
  | zero =>
    intro n hn
    have : n = 0 := by omega
    subst this
    rfl
  | succ f ih =>
    intro n hn
    by_cases h0 : n = 0
    · subst h0; rfl
    · have h10 : n % 10 < 10 := Nat.mod_lt _ (by omega)
      have hdiv : n / 10 < n := Nat.div_lt_self (Nat.pos_of_ne_zero h0) (by omega)
      simp only [decDigitsAux, if_neg h0, digitsVal]
      rw [char_digit_toNat _ h10, ih (n / 10) (by omega)]
      omega

lemma natDecimal_val (n : Nat) : digitsVal (natDecimal n).data.reverse = n := by
  by_cases h0 : n = 0
  · subst h0; rfl
  · simp only [natDecimal, if_neg h0, data_mk, List.reverse_reverse]
    exact digitsVal_decDigitsAux n n le_rfl

lemma natDecimal_inj : Function.Injective natDecimal := by
  intro a b h
  rw [← natDecimal_val a, ← natDecimal_val b, h]

lemma candidate_inj (folder base : String) :
    Function.Injective (candidate folder base) := by
  intro a b h
  have hd := congrArg String.data h
  match a, b with
  | 0, 0 => rfl
  | 0, m + 1 =>
    exfalso
    simp only [candidate, data_append, List.append_assoc,
      List.singleton_append] at hd
    have h2 := List.append_cancel_left hd
    have h3 := List.append_cancel_left (List.cons.inj h2).2
    exact absurd (List.cons.inj h3).1 (by decide)
  | n + 1, 0 =>
    exfalso
    simp only [candidate, data_append, List.append_assoc,
      List.singleton_append] at hd
    have h2 := List.append_cancel_left hd
    have h3 := List.append_cancel_left (List.cons.inj h2).2
    exact absurd (List.cons.inj h3).1 (by decide)
  | n + 1, m + 1 =>
    simp only [candidate, data_append, List.append_assoc,
      List.singleton_append] at hd
    have h2 := List.append_cancel_left hd
    have h3 := List.append_cancel_left (List.cons.inj h2).2
    have h4 := List.append_cancel_right (List.cons.inj h3).2
    have h5 : natDecimal (n + 1) = natDecimal (m + 1) := String.ext h4
    rw [natDecimal_inj h5]

lemma exists_candidate_free (fs : List String) (folder base : String) :
    ∃ n, n ≤ fs.length ∧ candidate folder base n ∉ fs := by
  by_contra hall
  push_neg at hall
  have hnodup : ((List.range (fs.length + 1)).map (candidate folder base)).Nodup :=
    (List.nodup_range _).map (candidate_inj folder base)
  have hsub : ((List.range (fs.length + 1)).map (candidate folder base)) ⊆ fs := by
    intro x hx
    obtain ⟨n, hn, rfl⟩ := List.mem_map.mp hx
    exact hall n (Nat.lt_succ_iff.mp (List.mem_range.mp hn))
  have hle := (List.subperm_of_subset hnodup hsub).length_le
  simp only [List.length_map, List.length_range] at hle
  omega

lemma resolveAux_free (fs : List String) (folder base : String) :
    ∀ fuel n, (∃ j, j < fuel ∧ candidate folder base (n + j) ∉ fs) →
      resolveAux fs folder base fuel n ∉ fs := by
  intro fuel
  induction fuel with
  | zero =>
    intro n hex
    obtain ⟨j, hj, _⟩ := hex
    omega
  | succ f ih =>
    intro n hex
    by_cases hmem : candidate folder base n ∈ fs
    · obtain ⟨j, hj, hfree⟩ := hex
      have hj0 : j ≠ 0 := by
        intro h
        subst h
        exact hfree (by simpa using hmem)
      simp only [resolveAux, if_pos hmem]
      refine ih (n + 1) ⟨j - 1, by omega, ?_⟩
      have : n + 1 + (j - 1) = n + j := by omega
      rw [this]
      exact hfree
    · simp only [resolveAux, if_neg hmem]
      exact hmem

lemma resolvePath_free (fs : List String) (folder base : String) :
    resolvePath fs folder base ∉ fs := by
  obtain ⟨n, hn, hfree⟩ := exists_candidate_free fs folder base
  exact resolveAux_free fs folder base (fs.length + 1) 0
    ⟨n, by omega, by simpa using hfree⟩

/-! Export loop lemmas. -/

lemma exportLoop_fresh (d : String) : ∀ (objs : List PyObj) (fs : List String),
    (∀ p ∈ (exportLoop d objs fs).written, p ∉ fs) ∧
    (exportLoop d objs fs).written.Nodup := by
  intro objs
  induction objs with
  | nil =>
    intro fs
    exact ⟨fun p hp => absurd hp (List.not_mem_nil p), List.nodup_nil⟩
  | cons o rest ih =>
    intro fs
    by_cases hv : o.verts < 3
    · simpa [exportLoop, hv] using ih fs
    · by_cases hr : o.raises
      · simpa [exportLoop, hv, hr] using ih fs
      · have hfree := resolvePath_free fs (d ++ "/" ++ bucketKey o.material)
          (clean_string o.name)
        have ihr := ih (fs ++
          [resolvePath fs (d ++ "/" ++ bucketKey o.material) (clean_string o.name)])
        simp only [exportLoop, if_neg hv, if_neg hr]
        constructor
        · intro p hp
          rcases List.mem_cons.mp hp with hph | hpt
          · rw [hph]; exact hfree
          · intro hpfs
            exact (ihr.1 p hpt) (List.mem_append_left _ hpfs)
        · refine List.nodup_cons.mpr ⟨?_, ihr.2⟩
          intro hmem
          exact (ihr.1 _ hmem) (List.mem_append_right _ (List.mem_singleton.mpr rfl))

lemma exportLoopStaged_counts (d : String) :
    ∀ (objs : List PyObjStaged) (fs : List String),
    (exportLoopStaged d objs fs).written.length =
      objs.countP (fun o => !decide (o.verts < 3) &&
        (decide (o.stage = RaiseStage.never) ||
          decide (o.stage = RaiseStage.atRevert))) ∧
    (exportLoopStaged d objs fs).count =
      objs.countP (fun o => !decide (o.verts < 3) &&
        decide (o.stage = RaiseStage.never)) ∧
    (exportLoopStaged d objs fs).failed =
      (objs.filter (fun o => !decide (o.verts < 3) &&
        !decide (o.stage = RaiseStage.never))).map (fun o => o.name) := by
  intro objs
  induction objs with
  | nil => intro fs; exact ⟨rfl, rfl, rfl⟩
  | cons o rest ih =>
    intro fs
    by_cases hv : o.verts < 3
    · simp [exportLoopStaged, hv, List.countP_cons, List.filter_cons,
        (ih fs).1, (ih fs).2.1, (ih fs).2.2]
    · cases hs : o.stage with
      | never =>
        have ihn := ih (fs ++
          [resolvePath fs (d ++ "/" ++ bucketKey o.material) (clean_string o.name)])
        simp [exportLoopStaged, hv, hs, List.countP_cons, List.filter_cons,
          ihn.1, ihn.2.1, ihn.2.2]
      | duringSetup =>
        simp [exportLoopStaged, hv, hs, List.countP_cons, List.filter_cons,
          (ih fs).1, (ih fs).2.1, (ih fs).2.2]
      | atExport =>
        simp [exportLoopStaged, hv, hs, List.countP_cons, List.filter_cons,
          (ih fs).1, (ih fs).2.1, (ih fs).2.2]
      | atRevert =>
        have ihn := ih (fs ++
          [resolvePath fs (d ++ "/" ++ bucketKey o.material) (clean_string o.name)])
        simp [exportLoopStaged, hv, hs, List.countP_cons, List.filter_cons,
          ihn.1, ihn.2.1, ihn.2.2]

/-- C5: collision-safe naming.  The resolved path never collides with an
already existing path; across a whole run the written paths are pairwise
distinct and disjoint from the pre-existing files, so no export
overwrites a previously written file; and exporting two objects both
named Brick into the same Red bucket yields Brick.obj then Brick_1.obj. -/
theorem collision_safe_naming_c5 :
    (∀ (fs : List String) (folder base : String),
      resolvePath fs folder base ∉ fs) ∧
    (∀ (d : String) (objs : List PyObj) (fs₀ : List String),
      (exportLoop d objs fs₀).written.Nodup ∧
      ∀ p ∈ (exportLoop d objs fs₀).written, p ∉ fs₀) ∧
    (exportLoop "out"
        [⟨"Brick", some "Red", 8, false, []⟩, ⟨"Brick", some "Red", 8, false, []⟩]
        []).written = ["out/Red/Brick.obj", "out/Red/Brick_1.obj"] :=
  ⟨resolvePath_free,
    fun d objs fs₀ => ⟨(exportLoop_fresh d objs fs₀).2, (exportLoop_fresh d objs fs₀).1⟩,
    rfl⟩

/-- C5 witness: the resolved path avoids a concrete occupied path, and a
concrete one-object run writes a path disjoint from the concrete
pre-existing file set. -/
theorem collision_safe_naming_c5_witness :
    resolvePath ["out/Red/Brick.obj"] "out/Red" "Brick" ∉ ["out/Red/Brick.obj"] ∧
    (exportLoop "out" [⟨"Brick", some "Red", 8, false, []⟩] ["keep.obj"]).written.Nodup ∧
    "out/Red/Brick.obj" ∉ ["keep.obj"] :=
  ⟨collision_safe_naming_c5.1 ["out/Red/Brick.obj"] "out/Red" "Brick",
    (collision_safe_naming_c5.2.1 "out" [⟨"Brick", some "Red", 8, false, []⟩]
      ["keep.obj"]).1,
    (collision_safe_naming_c5.2.1 "out" [⟨"Brick", some "Red", 8, false, []⟩]
      ["keep.obj"]).2 "out/Red/Brick.obj" (by decide)⟩

/-- C8 counterexample: an eligible object whose export call raises ends
the loop iteration with both transient modifiers still on it: the
failure path does not revert, so residue remains and the claim that
every exit path removes the two modifiers is false. -/
theorem revert_c8_counterexample :
    ((exportLoop "out" [⟨"B", some "Red", 9, true, []⟩] []).objs.map
      (fun o => o.mods)) = [["AutoTriangulate", "ToleranceShrink"]] ∧
    (["AutoTriangulate", "ToleranceShrink"] : List String) ≠ [] :=
  ⟨rfl, by decide⟩

/-- C8 amended: on the successful path the two transient modifiers added
in the geometry-adjustment step are removed again before the iteration
ends, but on the failure path (an exception raised at the export call,
after both modifiers were added) they remain on the live object. -/
theorem revert_c8_amended :
    ∀ (d : String) (objs : List PyObj) (fs : List String),
      (exportLoop d objs fs).objs.map (fun o => o.mods) =
        objs.map (fun o =>
          if !decide (o.verts < 3) && o.raises then
            o.mods ++ ["AutoTriangulate", "ToleranceShrink"]
          else o.mods) := by
  intro d objs
  induction objs with
  | nil => intro fs; rfl
  | cons o rest ih =>
    intro fs
    by_cases hv : o.verts < 3
    · simp only [exportLoop, if_pos hv, List.map_cons, ih fs]
      rw [if_neg (by simp [hv])]
    · by_cases hr : o.raises
      · simp only [exportLoop, if_neg hv, if_pos hr, List.map_cons, ih fs]
        rw [if_pos (by simp [hv, hr])]
      · simp only [exportLoop, if_neg hv, if_neg hr, List.map_cons,
          ih (fs ++
            [resolvePath fs (d ++ "/" ++ bucketKey o.material)
              (clean_string o.name)])]
        rw [if_neg (by simp [hr])]

/-- C6 counterexample: a batch of N = 2 eligible objects of which
exactly one raises - in the revert step, which the claim scope (bucket
derivation through revert) covers.  The raise is caught and logged, the
loop proceeds and the run exits 0, but the failing object had already
been written by the export call, so 2 = N files exist on disk, not
N - 1: the claim that N - 1 files are exported is false for this
covered raise point. -/
theorem failure_isolation_c6_counterexample :
    (runStaged (some "m.ldr") "out" false
      ⟨none, true,
        [⟨"A", some "Red", 8, RaiseStage.never, []⟩,
          ⟨"B", some "Red", 8, RaiseStage.atRevert, []⟩],
        fun _ => none⟩ []).exitCode = 0 ∧
    (runStaged (some "m.ldr") "out" false
      ⟨none, true,
        [⟨"A", some "Red", 8, RaiseStage.never, []⟩,
          ⟨"B", some "Red", 8, RaiseStage.atRevert, []⟩],
        fun _ => none⟩ []).failed = ["B"] ∧
    (runStaged (some "m.ldr") "out" false
      ⟨none, true,
        [⟨"A", some "Red", 8, RaiseStage.never, []⟩,
          ⟨"B", some "Red", 8, RaiseStage.atRevert, []⟩],
        fun _ => none⟩ []).exported = ["out/Red/A.obj", "out/Red/B.obj"] ∧
    (["out/Red/A.obj", "out/Red/B.obj"] : List String).length ≠ 2 - 1 :=
  ⟨rfl, rfl, rfl, by decide⟩

/-- C6 amended: when exactly one of N eligible objects raises anywhere
in its per-object export sequence, the failure is caught and logged with
that object's identity, the loop proceeds to the remaining objects, the
process still exits with status 0, and the run reports N - 1 successful
exports; N - 1 files are on disk when the raise happens before the
export call completes (bucket derivation through export), but a raise in
the revert step happens after the file was written, so N files exist. -/
theorem failure_isolation_c6_amended :
    ∀ (f d : String) (g : Bool) (w : WorldStaged) (fs₀ : List String)
      (pre post : List PyObjStaged) (bad : PyObjStaged),
      extOf f ∈ ldrawExts → w.importOk = true →
      w.objects = pre ++ bad :: post →
      (pre ++ post).all (fun o => !decide (o.verts < 3) &&
        decide (o.stage = RaiseStage.never)) = true →
      decide (bad.verts < 3) = false → bad.stage ≠ RaiseStage.never →
      (runStaged (some f) d g w fs₀).exitCode = 0 ∧
      (runStaged (some f) d g w fs₀).failed = [bad.name] ∧
      (runStaged (some f) d g w fs₀).reportedCount =
        (pre ++ bad :: post).length - 1 ∧
      (runStaged (some f) d g w fs₀).exported.length =
        (if bad.stage = RaiseStage.atRevert then (pre ++ bad :: post).length
         else (pre ++ bad :: post).length - 1) := by
  intro f d g w fs₀ pre post bad hext hok hobjs hgood hbadv hbadns
  have hgood2 := List.all_eq_true.mp hgood
  have hexp : (runStaged (some f) d g w fs₀).exported =
      (exportLoopStaged d w.objects fs₀).written := by
    simp [runStaged, hext, hok]
  have hfail : (runStaged (some f) d g w fs₀).failed =
      (exportLoopStaged d w.objects fs₀).failed := by
    simp [runStaged, hext, hok]
  have hcount : (runStaged (some f) d g w fs₀).reportedCount =
      (exportLoopStaged d w.objects fs₀).count := by
    simp [runStaged, hext, hok]
  have hbadnever : decide (bad.stage = RaiseStage.never) = false :=
    decide_eq_false hbadns
  refine ⟨by simp [runStaged, hext, hok], ?_, ?_, ?_⟩
  · rw [hfail, hobjs, (exportLoopStaged_counts d _ fs₀).2.2, List.filter_append,
      List.filter_cons]
    have hbadp : (!decide (bad.verts < 3) &&
        !decide (bad.stage = RaiseStage.never)) = true := by
      rw [hbadv, hbadnever]
      rfl
    have hgoodfalse : ∀ o, o ∈ pre ++ post →
        (!decide (o.verts < 3) && !decide (o.stage = RaiseStage.never)) = false := by
      intro o ho
      have h1 := hgood2 o ho
      simp only [Bool.and_eq_true, decide_eq_true_eq] at h1
      rw [decide_eq_true h1.2]
      simp
    have hpref : pre.filter (fun o => !decide (o.verts < 3) &&
        !decide (o.stage = RaiseStage.never)) = [] :=
      List.filter_eq_nil_iff.mpr (fun o ho => by
        rw [hgoodfalse o (List.mem_append_left _ ho)]
        simp)
    have hpostf : post.filter (fun o => !decide (o.verts < 3) &&
        !decide (o.stage = RaiseStage.never)) = [] :=
      List.filter_eq_nil_iff.mpr (fun o ho => by
        rw [hgoodfalse o (List.mem_append_right _ ho)]
        simp)
    rw [hbadp, hpref, hpostf]
    simp
  · rw [hcount, hobjs, (exportLoopStaged_counts d _ fs₀).2.1, List.countP_append,
      List.countP_cons]
    have hbadp : (!decide (bad.verts < 3) &&
        decide (bad.stage = RaiseStage.never)) = false := by
      rw [hbadnever]
      simp
    have hprec : pre.countP (fun o => !decide (o.verts < 3) &&
        decide (o.stage = RaiseStage.never)) = pre.length :=
      List.countP_eq_length.mpr (fun o ho => hgood2 o (List.mem_append_left _ ho))
    have hpostc : post.countP (fun o => !decide (o.verts < 3) &&
        decide (o.stage = RaiseStage.never)) = post.length :=
      List.countP_eq_length.mpr (fun o ho => hgood2 o (List.mem_append_right _ ho))
    rw [hbadp, hprec, hpostc]
    simp [List.length_append]
  · rw [hexp, hobjs, (exportLoopStaged_counts d _ fs₀).1, List.countP_append,
      List.countP_cons]
    have hgoodw : ∀ o, o ∈ pre ++ post →
        (!decide (o.verts < 3) && (decide (o.stage = RaiseStage.never) ||
          decide (o.stage = RaiseStage.atRevert))) = true := by
      intro o ho
      have h1 := hgood2 o ho
      simp only [Bool.and_eq_true, decide_eq_true_eq] at h1
      rw [h1.1, decide_eq_true h1.2]
      rfl
    have hprec : pre.countP (fun o => !decide (o.verts < 3) &&
        (decide (o.stage = RaiseStage.never) ||
          decide (o.stage = RaiseStage.atRevert))) = pre.length :=
      List.countP_eq_length.mpr (fun o ho => hgoodw o (List.mem_append_left _ ho))
    have hpostc : post.countP (fun o => !decide (o.verts < 3) &&
        (decide (o.stage = RaiseStage.never) ||
          decide (o.stage = RaiseStage.atRevert))) = post.length :=
      List.countP_eq_length.mpr (fun o ho => hgoodw o (List.mem_append_right _ ho))
    rw [hprec, hpostc]
    by_cases hrev : bad.stage = RaiseStage.atRevert
    · have hbadp : (!decide (bad.verts < 3) &&
          (decide (bad.stage = RaiseStage.never) ||
            decide (bad.stage = RaiseStage.atRevert))) = true := by
        rw [hbadv, hbadnever, decide_eq_true hrev]
        rfl
      rw [hbadp, if_pos hrev]
      simp [List.length_append]
    · have hbadp : (!decide (bad.verts < 3) &&
          (decide (bad.stage = RaiseStage.never) ||
            decide (bad.stage = RaiseStage.atRevert))) = false := by
        rw [hbadnever, decide_eq_false hrev]
        simp
      rw [hbadp, if_neg hrev]
      simp [List.length_append]

/-- C6 amended witness: three eligible objects of which exactly the
middle one raises at the export call: the run exits 0, logs only that
object, reports 2 = 3 - 1 exports, and 2 files are on disk. -/
theorem failure_isolation_c6_amended_witness :
    (runStaged (some "m.ldr") "out" false
      ⟨none, true,
        [⟨"A", some "Red", 8, RaiseStage.never, []⟩,
          ⟨"B", some "Red", 8, RaiseStage.atExport, []⟩,
          ⟨"C", none, 8, RaiseStage.never, []⟩],
        fun _ => none⟩ []).exitCode = 0 ∧
    (runStaged (some "m.ldr") "out" false
      ⟨none, true,
        [⟨"A", some "Red", 8, RaiseStage.never, []⟩,
          ⟨"B", some "Red", 8, RaiseStage.atExport, []⟩,
          ⟨"C", none, 8, RaiseStage.never, []⟩],
        fun _ => none⟩ []).failed = ["B"] ∧
    (runStaged (some "m.ldr") "out" false
      ⟨none, true,
        [⟨"A", some "Red", 8, RaiseStage.never, []⟩,
          ⟨"B", some "Red", 8, RaiseStage.atExport, []⟩,
          ⟨"C", none, 8, RaiseStage.never, []⟩],
        fun _ => none⟩ []).reportedCount = 2 ∧
    (runStaged (some "m.ldr") "out" false
      ⟨none, true,
        [⟨"A", some "Red", 8, RaiseStage.never, []⟩,
          ⟨"B", some "Red", 8, RaiseStage.atExport, []⟩,
          ⟨"C", none, 8, RaiseStage.never, []⟩],
        fun _ => none⟩ []).exported.length = 2 := by
  have h := failure_isolation_c6_amended "m.ldr" "out" false
    ⟨none, true,
      [⟨"A", some "Red", 8, RaiseStage.never, []⟩,
        ⟨"B", some "Red", 8, RaiseStage.atExport, []⟩,
        ⟨"C", none, 8, RaiseStage.never, []⟩],
      fun _ => none⟩ []
    [⟨"A", some "Red", 8, RaiseStage.never, []⟩]
    [⟨"C", none, 8, RaiseStage.never, []⟩]
    ⟨"B", some "Red", 8, RaiseStage.atExport, []⟩
    (by decide) rfl rfl (by decide) (by decide) (by decide)
  exact ⟨h.1, h.2.1, h.2.2.1, by simpa using h.2.2.2⟩

/-- C7: fatal errors exit non-zero before output, completed runs exit
zero.  A missing input argument exits 1 with nothing written; a failing
engine import of an LDraw or OBJ file exits 1 with no mesh file and no
instruction output written; and whenever the import succeeds the run
ends with exit status 0 whatever the per-object outcomes are. -/
theorem exit_status_c7 :
    ∀ (f d : String) (g : Bool) (w : World) (fs₀ : List String),
      ((run none d g w fs₀).exitCode = 1 ∧ (run none d g w fs₀).exported = [] ∧
        (run none d g w fs₀).instrFiles = []) ∧
      (w.importOk = false → extOf f ∈ ldrawExts ∨ extOf f = ".obj" →
        (run (some f) d g w fs₀).exitCode = 1 ∧
        (run (some f) d g w fs₀).exported = [] ∧
        (run (some f) d g w fs₀).instrFiles = []) ∧
      (w.importOk = true → (run (some f) d g w fs₀).exitCode = 0) := by
  intro f d g w fs₀
  refine ⟨⟨rfl, rfl, rfl⟩, ?_, ?_⟩
  · intro hok hext
    rcases hext with hld | hobj
    · refine ⟨?_, ?_, ?_⟩ <;> simp [run, hld, hok, instructionOutputs]
    · have hnotld : extOf f ∉ ldrawExts := by
        rw [hobj]
        decide
      refine ⟨?_, ?_, ?_⟩ <;> simp [run, hobj, hnotld, hok, instructionOutputs]
  · intro hok
    by_cases hld : extOf f ∈ ldrawExts
    · simp [run, hld, hok]
    · by_cases hobj : extOf f = ".obj"
      · simp [run, hld, hobj, hok]
      · simp [run, hld, hobj]

/-- C7 witness: concrete runs of every branch: missing input, failing
LDraw import, failing OBJ import, and a completed run. -/
theorem exit_status_c7_witness :
    (run none "out" false ⟨none, true, [], fun _ => none⟩ []).exitCode = 1 ∧
    (run (some "m.ldr") "out" true ⟨none, false, [], fun _ => none⟩ []).exitCode = 1 ∧
    (run (some "x.obj") "out" false ⟨none, false, [], fun _ => none⟩ []).exitCode = 1 ∧
    (run (some "m.ldr") "out" false ⟨none, true, [], fun _ => none⟩ []).exitCode = 0 :=
  ⟨(exit_status_c7 "m.ldr" "out" false ⟨none, true, [], fun _ => none⟩ []).1.1,
    ((exit_status_c7 "m.ldr" "out" true ⟨none, false, [], fun _ => none⟩ []).2.1
      rfl (Or.inl (by decide))).1,
    ((exit_status_c7 "x.obj" "out" false ⟨none, false, [], fun _ => none⟩ []).2.1
      rfl (Or.inr (by decide))).1,
    (exit_status_c7 "m.ldr" "out" false ⟨none, true, [], fun _ => none⟩ []).2.2 rfl⟩

/-- C10: an input path whose extension is none of .ldr, .mpd, .dat or
.obj triggers no import at all: the object list stays empty, no mesh
file and no instruction file is written, nothing fails, and the run
still exits with status 0. -/
theorem unknown_extension_c10 :
    ∀ (f d : String) (g : Bool) (w : World) (fs₀ : List String),
      extOf f ∉ [".ldr", ".mpd", ".dat", ".obj"] →
      (run (some f) d g w fs₀).exitCode = 0 ∧
      (run (some f) d g w fs₀).exported = [] ∧
      (run (some f) d g w fs₀).failed = [] ∧
      (run (some f) d g w fs₀).imported = false ∧
      (run (some f) d g w fs₀).instrFiles = [] := by
  intro f d g w fs₀ hext
  have hld : extOf f ∉ ldrawExts := by
    intro h
    apply hext
    simp only [ldrawExts, List.mem_cons, List.mem_singleton] at h
    simp only [List.mem_cons, List.mem_singleton]
    tauto
  have hobj : extOf f ≠ ".obj" := by
    intro h
    apply hext
    rw [h]
    decide
  refine ⟨?_, ?_, ?_, ?_, ?_⟩ <;> simp [run, hld, hobj]

/-- C10 witness: a concrete run on an stl path. -/
theorem unknown_extension_c10_witness :
    (run (some "part.stl") "out" true ⟨none, true, [], fun _ => none⟩ []).exitCode = 0 ∧
    (run (some "part.stl") "out" true ⟨none, true, [], fun _ => none⟩ []).exported = [] ∧
    (run (some "part.stl") "out" true ⟨none, true, [], fun _ => none⟩ []).failed = [] ∧
    (run (some "part.stl") "out" true ⟨none, true, [], fun _ => none⟩ []).imported = false ∧
    (run (some "part.stl") "out" true ⟨none, true, [], fun _ => none⟩ []).instrFiles = [] :=
  unknown_extension_c10 "part.stl" "out" true ⟨none, true, [], fun _ => none⟩ []
    (by decide)

end LDraw2Print
